import Mathlib

/-!
Shallow embedding of the AirTouch gesture-control core in Lean 4.

Python floats are modelled as rationals (`ℚ`), Python ints as `ℤ`/`ℕ`,
`None`-able values as `Option`, and mutating methods as state-passing
functions returning the updated object together with the method's result.

Embedded modules:
* `src/utils/math_utils.py`  — `clamp`
* `src/filters/ema_filter.py` — `EMAFilter`, `MultiEMAFilter`
* `src/control/zoom.py`      — `PinchZoomManager`, `ZoomGuard`
* `src/state/manager.py`     — `StateManager`
* `src/gesture/recognizer.py`— `ShakaModeRecognizer.check_hold_duration`
* `src/control/cursor.py`    — `CursorMapper`, `SystemCursorChanger`
* `src/control/mouse.py`     — `MouseController` (drag state)
* `src/main.py`              — the missing-signal branch of `process_frame`
-/

namespace AirTouch

/-- Embedding of `utils/math_utils.clamp`:
`min_val if value < min_val else max_val if value > max_val else value`. -/
def clamp {α : Type} [LinearOrder α] (value min_val max_val : α) : α :=
  if value < min_val then min_val
  else if max_val < value then max_val
  else value

/-- Python 3 `round` to an integer (banker's rounding: ties go to the even
neighbour), as used in `int(round(delta / self.px_per_step))`. -/
def pythonRound (q : ℚ) : ℤ :=
  let f : ℤ := ⌊q⌋
  let frac : ℚ := q - f
  if frac < 1/2 then f
  else if 1/2 < frac then f + 1
  else if f % 2 = 0 then f else f + 1

/-- Embedding of `filters/ema_filter.EMAFilter`: coefficient `alpha` and the
internal `_value` (`None` until seeded). -/
structure EMAFilter where
  alpha : ℚ
  value : Option ℚ
  deriving Repr, DecidableEq

/-- `EMAFilter(alpha)` constructor: `_value = None`. -/
def EMAFilter.make (alpha : ℚ) : EMAFilter :=
  { alpha := alpha, value := none }

/-- Embedding of `EMAFilter.update`: first call stores and returns the sample,
later calls return `alpha * new + (1 - alpha) * previous`. -/
def EMAFilter.update (f : EMAFilter) (new_value : ℚ) : EMAFilter × ℚ :=
  match f.value with
  | none => ({ f with value := some new_value }, new_value)
  | some prev =>
      let v := f.alpha * new_value + (1 - f.alpha) * prev
      ({ f with value := some v }, v)

/-- Embedding of `EMAFilter.reset`. -/
def EMAFilter.reset (f : EMAFilter) : EMAFilter :=
  { f with value := none }

/-- Embedding of `filters/ema_filter.MultiEMAFilter` specialised to the two
dimensions the cursor mapper uses (`dimensions=2`). -/
structure MultiEMAFilter where
  alpha : ℚ
  values : Option (ℚ × ℚ)
  deriving Repr, DecidableEq

/-- Embedding of `MultiEMAFilter.update` for a 2-dimensional sample. -/
def MultiEMAFilter.update (f : MultiEMAFilter) (new_values : ℚ × ℚ) :
    MultiEMAFilter × (ℚ × ℚ) :=
  match f.values with
  | none => ({ f with values := some new_values }, new_values)
  | some (px, py) =>
      let vx := f.alpha * new_values.1 + (1 - f.alpha) * px
      let vy := f.alpha * new_values.2 + (1 - f.alpha) * py
      ({ f with values := some (vx, vy) }, (vx, vy))

/-- Embedding of `MultiEMAFilter.reset`. -/
def MultiEMAFilter.reset (f : MultiEMAFilter) : MultiEMAFilter :=
  { f with values := none }

/-- The `info` dict built by `PinchZoomManager.process_pinch`. -/
structure PinchInfo where
  raw_pinch : ℚ
  normalized_pinch : ℚ
  z_avg : Option ℚ
  reference_z : Option ℚ
  z_scale_factor : ℚ
  base_pinch : Option ℚ
  delta : ℚ
  steps_total : ℤ
  steps_to_fire : ℤ
  collecting_ref_z : Bool
  deriving Repr, DecidableEq

/-- Embedding of the state of `control/zoom.PinchZoomManager`. -/
structure PinchZoomManager where
  px_per_step : ℚ
  deadzone_px : ℚ
  max_steps_per_frame : ℤ
  z_normalization_enabled : Bool
  min_z_for_normalization : ℚ
  reference_z_frames : ℕ
  reference_z : Option ℚ
  z_samples : List ℚ
  ema_filter : EMAFilter
  base_pinch : Option ℚ
  prev_steps_sent : ℤ
  deriving Repr, DecidableEq

/-- `PinchZoomManager.__init__` with the shipped defaults
(`px_per_step=30, deadzone_px=3, max_steps_per_frame=6, ...`),
parameterised over `ema_alpha` as in the source. -/
def PinchZoomManager.make (ema_alpha : ℚ) : PinchZoomManager :=
  { px_per_step := 30
    deadzone_px := 3
    max_steps_per_frame := 6
    z_normalization_enabled := true
    min_z_for_normalization := 20
    reference_z_frames := 5
    reference_z := none
    z_samples := []
    ema_filter := EMAFilter.make ema_alpha
    base_pinch := none
    prev_steps_sent := 0 }

/-- Embedding of `PinchZoomManager.reset`. -/
def PinchZoomManager.reset (m : PinchZoomManager) : PinchZoomManager :=
  { m with base_pinch := none
           prev_steps_sent := 0
           reference_z := none
           z_samples := []
           ema_filter := m.ema_filter.reset }

/-- Step 1 of `process_pinch`: perspective normalization and reference-Z
bookkeeping. Returns the manager with updated `reference_z`/`_z_samples`,
the partially-filled info dict, and `normalized_pinch`. -/
def PinchZoomManager.normalizeStep (m : PinchZoomManager) (pinch_distance : ℚ)
    (idx_tip_z thumb_tip_z : Option ℚ) (info0 : PinchInfo) :
    PinchZoomManager × PinchInfo × ℚ :=
  match idx_tip_z, thumb_tip_z with
  | some iz, some tz =>
      if m.z_normalization_enabled then
        let z_avg := (|iz| + |tz|) / 2
        let info1 := { info0 with z_avg := some z_avg }
        match m.reference_z with
        | none =>
            let samples :=
              if m.min_z_for_normalization ≤ z_avg then m.z_samples ++ [z_avg]
              else m.z_samples
            if m.reference_z_frames ≤ samples.length then
              let r := samples.sum / (samples.length : ℚ)
              let m1 := { m with reference_z := some r, z_samples := samples }
              let info2 := { info1 with reference_z := some r }
              if m.min_z_for_normalization ≤ z_avg then
                let zf := r / z_avg
                (m1, { info2 with z_scale_factor := zf,
                                  normalized_pinch := pinch_distance * zf },
                  pinch_distance * zf)
              else (m1, info2, pinch_distance)
            else
              ({ m with z_samples := samples },
                { info1 with collecting_ref_z := true }, pinch_distance)
        | some r =>
            if m.min_z_for_normalization ≤ z_avg then
              let zf := r / z_avg
              (m, { info1 with z_scale_factor := zf,
                               normalized_pinch := pinch_distance * zf },
                pinch_distance * zf)
            else (m, info1, pinch_distance)
      else (m, info0, pinch_distance)
  | _, _ => (m, info0, pinch_distance)

/-- The initial `info` dict of `process_pinch`. -/
def PinchZoomManager.initInfo (m : PinchZoomManager) (pinch_distance : ℚ) :
    PinchInfo :=
  { raw_pinch := pinch_distance
    normalized_pinch := pinch_distance
    z_avg := none
    reference_z := m.reference_z
    z_scale_factor := 1
    base_pinch := m.base_pinch
    delta := 0
    steps_total := 0
    steps_to_fire := 0
    collecting_ref_z := false }

/-- Embedding of `PinchZoomManager.process_pinch`. Returns the updated
manager, `steps_to_fire`, and the `info` dict. -/
def PinchZoomManager.process_pinch (m : PinchZoomManager) (pinch_distance : ℚ)
    (idx_tip_z thumb_tip_z : Option ℚ) : PinchZoomManager × ℤ × PinchInfo :=
  -- 1. perspective normalization
  let (m1, info1, normalized_pinch) :=
    m.normalizeStep pinch_distance idx_tip_z thumb_tip_z (m.initInfo pinch_distance)
  -- 2. EMA filtering
  let (ema1, filtered_pinch) := m1.ema_filter.update normalized_pinch
  let m2 := { m1 with ema_filter := ema1 }
  -- 3. baseline: set only once reference Z is available (or normalization off)
  let (m3, info3) :=
    match m2.base_pinch with
    | none =>
        if ¬m2.z_normalization_enabled ∨ m2.reference_z ≠ none then
          ({ m2 with base_pinch := some filtered_pinch, prev_steps_sent := 0 },
            { info1 with base_pinch := some filtered_pinch })
        else (m2, info1)
    | some _ => (m2, info1)
  -- 4./5. delta, quantization, incremental steps
  match m3.base_pinch with
  | some base =>
      let delta := filtered_pinch - base
      let steps_total : ℤ :=
        if |delta| ≤ m3.deadzone_px then 0
        else pythonRound (delta / m3.px_per_step)
      let steps_to_fire :=
        clamp (steps_total - m3.prev_steps_sent)
          (-m3.max_steps_per_frame) m3.max_steps_per_frame
      (m3, steps_to_fire,
        { info3 with delta := delta, steps_total := steps_total,
                     steps_to_fire := steps_to_fire })
  | none => (m3, 0, info3)

/-- Embedding of `PinchZoomManager.execute_zoom`: fires the wheel events and
adds `steps` to `prev_steps_sent` (no-op when `steps = 0`). -/
def PinchZoomManager.execute_zoom (m : PinchZoomManager) (steps : ℤ) :
    PinchZoomManager × ℤ :=
  if 0 < steps then
    ({ m with prev_steps_sent := m.prev_steps_sent + steps }, steps)
  else if steps < 0 then
    ({ m with prev_steps_sent := m.prev_steps_sent + steps }, steps)
  else (m, 0)

/-- The dict returned by `StateManager.process_z_distance`. -/
structure ZInfo where
  active : Bool
  z_len_filtered : ℚ
  base_len : ℚ
  threshold_on : ℚ
  threshold_off : ℚ
  state_changed : Bool
  new_state : Bool
  deriving Repr, DecidableEq

/-- Embedding of the state of `state/manager.StateManager`. -/
structure StateManager where
  factor : ℚ
  factor_min : ℚ
  factor_max : ℚ
  factor_step : ℚ
  z_margin : ℚ
  hysteresis_ratio : ℚ
  ema_filter : EMAFilter
  active : Bool
  base_len : Option ℚ
  prev_z_len : Option ℚ
  deriving Repr, DecidableEq

/-- `StateManager.__init__` with the shipped `config.py` defaults
(`FACTOR=1.20, FACTOR_MIN=0.3, FACTOR_MAX=3.0, FACTOR_STEP=0.2,
Z_MARGIN=5.0, HYSTERESIS_RATIO=0.95, EMA_LEN_ALPHA=0.5`). -/
def StateManager.make : StateManager :=
  { factor := 6/5
    factor_min := 3/10
    factor_max := 3
    factor_step := 1/5
    z_margin := 5
    hysteresis_ratio := 19/20
    ema_filter := EMAFilter.make (1/2)
    active := false
    base_len := none
    prev_z_len := none }

/-- The state-transition core of `process_z_distance`: from the current
`active` flag and the filtered value, produce `(new_active, state_changed)`
exactly as the two `if`/`elif` branches of the source do. -/
def stateTransition (active : Bool) (z_len_filtered threshold_on threshold_off : ℚ) :
    Bool × Bool :=
  if ¬active ∧ threshold_on ≤ z_len_filtered then (true, true)
  else if active ∧ z_len_filtered < threshold_off then (false, true)
  else (active, false)

/-- Embedding of `StateManager.process_z_distance`. -/
def StateManager.process_z_distance (sm : StateManager) (z_distance : ℚ) :
    StateManager × ZInfo :=
  let (ema1, z_len_filtered) := sm.ema_filter.update z_distance
  let base_len := sm.base_len.getD z_len_filtered
  let threshold_on := base_len * sm.factor + sm.z_margin
  let threshold_off :=
    base_len * max (4/5) (sm.factor * sm.hysteresis_ratio) - sm.z_margin
  let (new_active, state_changed) :=
    stateTransition sm.active z_len_filtered threshold_on threshold_off
  ({ sm with ema_filter := ema1
             base_len := some base_len
             active := new_active
             prev_z_len := some z_len_filtered },
    { active := new_active
      z_len_filtered := z_len_filtered
      base_len := base_len
      threshold_on := threshold_on
      threshold_off := threshold_off
      state_changed := state_changed
      new_state := new_active })

/-- Embedding of `StateManager.increase_factor`. -/
def StateManager.increase_factor (sm : StateManager) : StateManager :=
  { sm with factor := min (sm.factor + sm.factor_step) sm.factor_max }

/-- Embedding of `StateManager.decrease_factor`. -/
def StateManager.decrease_factor (sm : StateManager) : StateManager :=
  { sm with factor := max (sm.factor - sm.factor_step) sm.factor_min }

/-- Embedding of the state of `control/zoom.ZoomGuard`, with the shipped
defaults `active_grace_ms=180, release_cooldown_ms=280, edge_band=8,
drop_guard=12` available through `ZoomGuard.make`. -/
structure ZoomGuard where
  active_grace_ms : ℤ
  release_cooldown_ms : ℤ
  edge_band : ℚ
  drop_guard : ℚ
  zoom_block_until : ℤ
  prev_z_len : Option ℚ
  deriving Repr, DecidableEq

/-- `ZoomGuard.__init__` with the shipped defaults. -/
def ZoomGuard.make : ZoomGuard :=
  { active_grace_ms := 180
    release_cooldown_ms := 280
    edge_band := 8
    drop_guard := 12
    zoom_block_until := 0
    prev_z_len := none }

/-- Embedding of `ZoomGuard.set_grace_period`. -/
def ZoomGuard.set_grace_period (g : ZoomGuard) (current_time_ms : ℤ) : ZoomGuard :=
  { g with zoom_block_until := current_time_ms + g.active_grace_ms }

/-- Embedding of `ZoomGuard.set_cooldown`. -/
def ZoomGuard.set_cooldown (g : ZoomGuard) (current_time_ms : ℤ) : ZoomGuard :=
  { g with zoom_block_until := current_time_ms + g.release_cooldown_ms }

/-- Embedding of `ZoomGuard.is_zoom_allowed`: returns the updated guard and
`(allowed, reason)`. The `threshold_off` argument is accepted (as in the
source signature) but unused by the decision logic. -/
def ZoomGuard.is_zoom_allowed (g : ZoomGuard) (current_time_ms : ℤ)
    (current_z_len threshold_on threshold_off : ℚ) :
    ZoomGuard × Bool × String :=
  -- 1. cooldown / grace check
  if current_time_ms < g.zoom_block_until then
    (g, false, "cooldown/grace")
  -- 2. edge band check
  else if current_z_len < threshold_on + g.edge_band then
    (g, false, "edge-band")
  else
    -- 3. sudden Z-drop check
    match g.prev_z_len with
    | some prev =>
        if g.drop_guard < prev - current_z_len then
          ({ g with zoom_block_until := current_time_ms + 120 },
            false, "z-drop-guard")
        else
          ({ g with prev_z_len := some current_z_len }, true, "")
    | none =>
        ({ g with prev_z_len := some current_z_len }, true, "")

/-- Embedding of `ZoomGuard.reset`. -/
def ZoomGuard.reset (g : ZoomGuard) : ZoomGuard :=
  { g with zoom_block_until := 0, prev_z_len := none }

/-- Embedding of the state of `gesture/recognizer.ShakaModeRecognizer`
(the hold-duration part; default `hold_duration_ms=2000`). -/
structure ShakaModeRecognizer where
  hold_duration_ms : ℤ
  gesture_start_time : Option ℤ
  gesture_confirmed : Bool
  deriving Repr, DecidableEq

/-- `ShakaModeRecognizer.__init__`. -/
def ShakaModeRecognizer.make (hold_duration_ms : ℤ) : ShakaModeRecognizer :=
  { hold_duration_ms := hold_duration_ms
    gesture_start_time := none
    gesture_confirmed := false }

/-- Embedding of `ShakaModeRecognizer.check_hold_duration`: returns the
updated recognizer and `(mode-change trigger, progress)`. -/
def ShakaModeRecognizer.check_hold_duration (r : ShakaModeRecognizer)
    (is_shaka : Bool) (current_time_ms : ℤ) :
    ShakaModeRecognizer × Bool × ℚ :=
  if is_shaka then
    let r1 :=
      match r.gesture_start_time with
      | none => { r with gesture_start_time := some current_time_ms,
                         gesture_confirmed := false }
      | some _ => r
    let start := r1.gesture_start_time.getD current_time_ms
    let elapsed : ℤ := current_time_ms - start
    let progress : ℚ := min 1 ((elapsed : ℚ) / (r.hold_duration_ms : ℚ))
    if r.hold_duration_ms ≤ elapsed ∧ ¬r1.gesture_confirmed then
      ({ r1 with gesture_confirmed := true }, true, 1)
    else
      (r1, false, progress)
  else
    ({ r with gesture_start_time := none, gesture_confirmed := false },
      false, 0)

/-- Python `int(...)` on a real value: truncation toward zero. -/
def pythonInt (q : ℚ) : ℤ :=
  if 0 ≤ q then ⌊q⌋ else ⌈q⌉

/-- Embedding of the state of `control/cursor.CursorMapper`. -/
structure CursorMapper where
  screen_width : ℤ
  screen_height : ℤ
  ema_filter : MultiEMAFilter
  move_threshold : ℤ
  mirror : Bool
  last_sent : Option (ℤ × ℤ)
  deriving Repr, DecidableEq

/-- Embedding of `CursorMapper.map_to_screen`: returns the updated mapper and
`(final_x, final_y, moved)`. -/
def CursorMapper.map_to_screen (c : CursorMapper)
    (normalized_x normalized_y : ℚ) : CursorMapper × (ℤ × ℤ × Bool) :=
  let nx := if c.mirror then 1 - normalized_x else normalized_x
  let screen_x := clamp nx 0 1 * (c.screen_width : ℚ)
  let screen_y := clamp normalized_y 0 1 * (c.screen_height : ℚ)
  let (ema1, filtered) := c.ema_filter.update (screen_x, screen_y)
  let final_x := pythonInt (clamp filtered.1 0 ((c.screen_width : ℚ) - 1))
  let final_y := pythonInt (clamp filtered.2 0 ((c.screen_height : ℚ) - 1))
  let should_move :=
    match c.last_sent with
    | none => true
    | some (lx, ly) =>
        decide (c.move_threshold ≤ |final_x - lx|) ||
        decide (c.move_threshold ≤ |final_y - ly|)
  if should_move then
    ({ c with ema_filter := ema1, last_sent := some (final_x, final_y) },
      (final_x, final_y, true))
  else
    ({ c with ema_filter := ema1 }, (final_x, final_y, false))

/-- Embedding of `CursorMapper.reset`. -/
def CursorMapper.reset (c : CursorMapper) : CursorMapper :=
  { c with ema_filter := c.ema_filter.reset, last_sent := none }

/-- Embedding of the drag-relevant state of `control/mouse.MouseController`. -/
structure MouseController where
  dragging : Bool
  windows_available : Bool
  deriving Repr, DecidableEq

/-- Embedding of `MouseController.drag_end` (the actual mouse-up event is a
side effect outside the model). -/
def MouseController.drag_end (mc : MouseController) : MouseController :=
  if ¬mc.windows_available then mc
  else if mc.dragging then { mc with dragging := false } else mc

/-- Embedding of the state of `control/cursor.SystemCursorChanger`. -/
structure SystemCursorChanger where
  enabled : Bool
  cursor_changed : Bool
  windows_available : Bool
  deriving Repr, DecidableEq

/-- Embedding of `SystemCursorChanger.restore_cursor`. -/
def SystemCursorChanger.restore_cursor (cc : SystemCursorChanger) :
    SystemCursorChanger × Bool :=
  if ¬cc.windows_available ∨ ¬cc.cursor_changed then (cc, false)
  else ({ cc with cursor_changed := false }, true)

/-- Gesture events the per-frame update may emit toward the OS. -/
inductive GestureEvent where
  | click : GestureEvent
  | dragStart : GestureEvent
  | dragEnd : GestureEvent
  | zoomStep : ℤ → GestureEvent
  | scroll : ℤ → GestureEvent
  deriving Repr, DecidableEq

/-- The stateful components touched by the missing-signal branch of
`AirTouchApp.process_frame`. -/
structure AppState where
  mouse : MouseController
  cursor_changer : SystemCursorChanger
  state_manager : StateManager
  pinch_zoom_manager : PinchZoomManager
  zoom_guard : ZoomGuard
  deriving Repr, DecidableEq

/-- Embedding of the missing-signal branch of `AirTouchApp.process_frame`
(`src/main.py`, the `eye_mid_z is None or idx_tip_z is None or landmarks_2d
is None` case): release a held drag, restore the cursor if the activation
state machine is ACTIVE, reset the pinch-zoom session and the zoom guard,
and return without recognizing any gesture. The returned list holds the
gesture events recognized for the frame. -/
def handleMissingSignal (st : AppState) : AppState × List GestureEvent :=
  let mouse1 := if st.mouse.dragging then st.mouse.drag_end else st.mouse
  let cursor1 :=
    if st.state_manager.active then (st.cursor_changer.restore_cursor).1
    else st.cursor_changer
  ({ st with mouse := mouse1
             cursor_changer := cursor1
             pinch_zoom_manager := st.pinch_zoom_manager.reset
             zoom_guard := st.zoom_guard.reset },
    [])

/-- Outputs of a sequence of `EMAFilter.update` calls. -/
def EMAFilter.runOutputs (f : EMAFilter) : List ℚ → List ℚ
  | [] => []
  | x :: xs =>
      let p := f.update x
      p.2 :: p.1.runOutputs xs

lemma EMAFilter.update_value (f : EMAFilter) (x : ℚ) :
    (f.update x).1.value = some (f.update x).2 := by
  unfold EMAFilter.update
  cases f.value <;> simp

lemma EMAFilter.update_alpha (f : EMAFilter) (x : ℚ) :
    (f.update x).1.alpha = f.alpha := by
  unfold EMAFilter.update
  cases f.value <;> simp

lemma ema_const_run (n : ℕ) :
    ∀ (f : EMAFilter) (c : ℚ), f.value = some c →
      f.runOutputs (List.replicate n c) = List.replicate n c := by
  induction n with
  | zero => intro f c _; simp [EMAFilter.runOutputs]
  | succ k ih =>
      intro f c hv
      have hfix : f.alpha * c + (1 - f.alpha) * c = c := by ring
      simp only [List.replicate_succ, EMAFilter.runOutputs, EMAFilter.update, hv,
        hfix]
      exact congrArg (List.cons c) (ih _ c rfl)

lemma ema_run_strict (lo hi : ℚ) (xs : List ℚ) :
    ∀ (f : EMAFilter) (v : ℚ),
      f.value = some v → 0 < f.alpha → f.alpha < 1 →
      lo < v → v < hi → (∀ x ∈ xs, x = lo ∨ x = hi) →
      ∀ y ∈ f.runOutputs xs, lo < y ∧ y < hi := by
  induction xs with
  | nil => intro f v _ _ _ _ _ _ y hy; simp [EMAFilter.runOutputs] at hy
  | cons x xs ih =>
      intro f v hv ha0 ha1 hlo hhi hmem y hy
      have hx : x = lo ∨ x = hi := hmem x (by simp)
      have hxlo : lo ≤ x := by rcases hx with h | h <;> rw [h] <;> linarith
      have hxhi : x ≤ hi := by rcases hx with h | h <;> rw [h] <;> linarith
      have hb1 : lo < f.alpha * x + (1 - f.alpha) * v := by nlinarith
      have hb2 : f.alpha * x + (1 - f.alpha) * v < hi := by nlinarith
      simp only [EMAFilter.runOutputs, EMAFilter.update, hv, List.mem_cons] at hy
      rcases hy with h | h
      · exact h ▸ ⟨hb1, hb2⟩
      · exact ih { f with value := some (f.alpha * x + (1 - f.alpha) * v) }
          (f.alpha * x + (1 - f.alpha) * v) rfl ha0 ha1 hb1 hb2
          (fun z hz => hmem z (by simp [hz])) y h

lemma normalizeStep_fields (m : PinchZoomManager) (pinch : ℚ)
    (iz tz : Option ℚ) (info : PinchInfo) :
    (m.normalizeStep pinch iz tz info).1.base_pinch = m.base_pinch ∧
    (m.normalizeStep pinch iz tz info).1.prev_steps_sent = m.prev_steps_sent ∧
    (m.normalizeStep pinch iz tz info).1.deadzone_px = m.deadzone_px ∧
    (m.normalizeStep pinch iz tz info).1.px_per_step = m.px_per_step ∧
    (m.normalizeStep pinch iz tz info).1.max_steps_per_frame
        = m.max_steps_per_frame ∧
    (m.normalizeStep pinch iz tz info).1.ema_filter = m.ema_filter ∧
    (m.normalizeStep pinch iz tz info).1.z_normalization_enabled
        = m.z_normalization_enabled := by
  unfold PinchZoomManager.normalizeStep
  rcases iz with _ | iz <;> rcases tz with _ | tz <;> try simp
  repeat' split
  all_goals simp

/-- Full characterization of `process_pinch` when the baseline is set. -/
lemma process_pinch_spec (m : PinchZoomManager) (pinch : ℚ)
    (iz tz : Option ℚ) (base : ℚ) (h : m.base_pinch = some base) :
    (m.process_pinch pinch iz tz).1.ema_filter.value
        = some ((m.process_pinch pinch iz tz).1.ema_filter.value.getD 0) ∧
    (m.process_pinch pinch iz tz).1.prev_steps_sent = m.prev_steps_sent ∧
    (m.process_pinch pinch iz tz).1.base_pinch = some base ∧
    (m.process_pinch pinch iz tz).2.2.delta
        = ((m.process_pinch pinch iz tz).1.ema_filter.value.getD 0) - base ∧
    (m.process_pinch pinch iz tz).2.2.steps_total
        = (if |(m.process_pinch pinch iz tz).2.2.delta| ≤ m.deadzone_px then 0
           else pythonRound
              ((m.process_pinch pinch iz tz).2.2.delta / m.px_per_step)) ∧
    (m.process_pinch pinch iz tz).2.1
        = clamp ((m.process_pinch pinch iz tz).2.2.steps_total
              - m.prev_steps_sent)
            (-m.max_steps_per_frame) m.max_steps_per_frame ∧
    (m.process_pinch pinch iz tz).2.2.steps_to_fire
        = (m.process_pinch pinch iz tz).2.1 := by
  have hf := normalizeStep_fields m pinch iz tz (m.initInfo pinch)
  rcases hn : m.normalizeStep pinch iz tz (m.initInfo pinch) with ⟨m1, i1, np⟩
  rw [hn] at hf
  obtain ⟨hb, hp, hd, hx, hmx, he, hz⟩ := hf
  simp only at hb hp hd hx hmx he hz
  simp only [PinchZoomManager.process_pinch, hn]
  rcases hv : m1.ema_filter.value with _ | prev <;>
    simp only [EMAFilter.update, hv, hb, h] <;>
    simp [hb, h, hp, hd, hx, hmx]

/-- Concrete quantizer configuration used in the claim's numeric examples:
shipped `px_per_step=30, deadzone_px=3`, perspective normalization off,
baseline already set to 0, EMA unseeded with `alpha=1` so the filtered pinch
equals the raw pinch on the first call. -/
def quantizerTest : PinchZoomManager :=
  { PinchZoomManager.make 1 with
      z_normalization_enabled := false
      base_pinch := some 0 }

/-- C7: EMA filter contract — the first `update` after construction or reset
returns the sample unchanged and seeds the state; every subsequent `update`
returns `alpha*sample + (1-alpha)*previous`; constant input `c` yields `c`
on every call; and for inputs alternating between two extremes `lo < hi`
every output after the first is strictly between `lo` and `hi` when
`alpha ∈ (0,1)`. -/
theorem C7_ema_filter_contract :
    (∀ (alpha s : ℚ),
        ((EMAFilter.make alpha).update s).2 = s ∧
        ((EMAFilter.make alpha).update s).1.value = some s) ∧
    (∀ (f : EMAFilter) (s : ℚ),
        (f.reset.update s).2 = s ∧ (f.reset.update s).1.value = some s) ∧
    (∀ (f : EMAFilter) (s prev : ℚ), f.value = some prev →
        (f.update s).2 = f.alpha * s + (1 - f.alpha) * prev ∧
        (f.update s).1.value = some (f.alpha * s + (1 - f.alpha) * prev)) ∧
    (∀ (alpha c : ℚ) (n : ℕ),
        (EMAFilter.make alpha).runOutputs (List.replicate n c)
          = List.replicate n c) ∧
    (∀ (alpha lo hi : ℚ) (xs : List ℚ), 0 < alpha → alpha < 1 → lo < hi →
        (∀ x ∈ xs, x = lo ∨ x = hi) → xs.Chain' (· ≠ ·) →
        ∀ y ∈ ((EMAFilter.make alpha).runOutputs xs).tail,
          lo < y ∧ y < hi) := by
  refine ⟨?_, ?_, ?_, ?_, ?_⟩
  · intro alpha s
    simp [EMAFilter.make, EMAFilter.update]
  · intro f s
    simp [EMAFilter.reset, EMAFilter.update]
  · intro f s prev hv
    simp [EMAFilter.update, hv]
  · intro alpha c n
    cases n with
    | zero => simp [EMAFilter.runOutputs]
    | succ k =>
        simp only [List.replicate_succ, EMAFilter.runOutputs, EMAFilter.make,
          EMAFilter.update]
        exact congrArg (List.cons c) (ema_const_run k _ c rfl)
  · intro alpha lo hi xs ha0 ha1 hlt hmem halt
    cases xs with
    | nil => simp [EMAFilter.runOutputs]
    | cons x0 rest =>
        cases rest with
        | nil => simp [EMAFilter.runOutputs, EMAFilter.make, EMAFilter.update]
        | cons x1 rest2 =>
            have hx0 : x0 = lo ∨ x0 = hi := hmem x0 (by simp)
            have hx1 : x1 = lo ∨ x1 = hi := hmem x1 (by simp)
            have hne : x0 ≠ x1 := (List.chain'_cons.mp halt).1
            have hb1 : lo < alpha * x1 + (1 - alpha) * x0 ∧
                alpha * x1 + (1 - alpha) * x0 < hi := by
              rcases hx0 with h0 | h0 <;> rcases hx1 with h1 | h1 <;>
                subst h0 <;> subst h1 <;> first
                  | exact absurd rfl hne
                  | constructor <;> nlinarith
            intro y hy
            simp only [EMAFilter.runOutputs, EMAFilter.make, EMAFilter.update,
              List.tail_cons] at hy
            simp only [EMAFilter.runOutputs, EMAFilter.update,
              List.mem_cons] at hy
            rcases hy with h | h
            · exact h ▸ hb1
            · exact ema_run_strict lo hi rest2 _ _ rfl ha0 ha1 hb1.1 hb1.2
                (fun z hz => hmem z (by simp [hz])) y h

/-- C7 witness: the subsequent-call formula applied at a concrete filter, and
the alternating-extremes bound at a concrete alternating run. -/
theorem C7_ema_filter_contract_witness :
    ((EMAFilter.mk (1/2) (some 2)).update 4).2 = (1/2) * 4 + (1 - 1/2) * 2 ∧
    (∀ y ∈ ((EMAFilter.make (1/2)).runOutputs [0, 10, 0]).tail,
        (0:ℚ) < y ∧ y < 10) := by
  constructor
  · exact (C7_ema_filter_contract.2.2.1 (EMAFilter.mk (1/2) (some 2)) 4 2
      rfl).1
  · exact C7_ema_filter_contract.2.2.2.2 (1/2) 0 10 [0, 10, 0]
      (by norm_num) (by norm_num) (by norm_num)
      (by intro x hx; fin_cases hx <;> simp)
      (by simp [List.chain'_cons])

/-- C8: zoom quantizer step computation — with the baseline set,
`delta = filtered_pinch - base_pinch`, `steps_total = 0` when
`|delta| ≤ deadzone_px` and `round(delta / px_per_step)` otherwise; with
`px_per_step=30, deadzone=3` a delta of exactly 3 yields 0 steps, 31 yields
1 step, and -61 yields -2 steps. -/
theorem C8_zoom_quantizer_steps :
    (∀ (m : PinchZoomManager) (pinch : ℚ) (iz tz : Option ℚ) (base : ℚ),
        m.base_pinch = some base →
        (m.process_pinch pinch iz tz).2.2.delta
            = ((m.process_pinch pinch iz tz).1.ema_filter.value.getD 0)
                - base ∧
        (m.process_pinch pinch iz tz).2.2.steps_total
            = (if |(m.process_pinch pinch iz tz).2.2.delta| ≤ m.deadzone_px
               then 0
               else pythonRound
                  ((m.process_pinch pinch iz tz).2.2.delta / m.px_per_step))) ∧
    (quantizerTest.process_pinch 3 none none).2.2.delta = 3 ∧
    (quantizerTest.process_pinch 3 none none).2.2.steps_total = 0 ∧
    (quantizerTest.process_pinch 31 none none).2.2.delta = 31 ∧
    (quantizerTest.process_pinch 31 none none).2.2.steps_total = 1 ∧
    (quantizerTest.process_pinch (-61) none none).2.2.delta = -61 ∧
    (quantizerTest.process_pinch (-61) none none).2.2.steps_total = -2 := by
  refine ⟨?_, ?_, ?_, ?_, ?_, ?_, ?_⟩
  · intro m pinch iz tz base h
    have hs := process_pinch_spec m pinch iz tz base h
    exact ⟨hs.2.2.2.1, hs.2.2.2.2.1⟩
  all_goals
    norm_num [quantizerTest, PinchZoomManager.make, PinchZoomManager.process_pinch,
      PinchZoomManager.normalizeStep, PinchZoomManager.initInfo, EMAFilter.make,
      EMAFilter.update, pythonRound, clamp]

/-- C8 witness: the general delta/steps formula applied at the concrete
quantizer configuration. -/
theorem C8_zoom_quantizer_steps_witness :
    (quantizerTest.process_pinch 31 none none).2.2.delta
        = ((quantizerTest.process_pinch 31 none none).1.ema_filter.value.getD 0)
            - 0 :=
  (C8_zoom_quantizer_steps.1 quantizerTest 31 none none 0 rfl).1

/-- Per-frame loop of the pinch-zoom session as `process_touch_mode` drives
it when zoom is allowed: process the pinch, execute every returned step.
Records `(steps_total, steps_to_fire, prev_steps_sent after execution)`. -/
def runPinchFrames (m : PinchZoomManager) : List ℚ → List (ℤ × ℤ × ℤ)
  | [] => []
  | p :: rest =>
      let r := m.process_pinch p none none
      let e := r.1.execute_zoom r.2.1
      (r.2.2.steps_total, r.2.1, e.1.prev_steps_sent) :: runPinchFrames e.1 rest

/-- Start state of the claim's zoom scenario: shipped quantizer parameters,
perspective normalization off, no baseline yet, `alpha=1` so filtered pinch
equals raw pinch. -/
def pinchScenarioStart : PinchZoomManager :=
  { PinchZoomManager.make 1 with z_normalization_enabled := false }

/-- C1: incremental-step protocol of the pinch-zoom quantizer —
`process_pinch` computes `steps_to_fire = clamp(steps_total -
prev_steps_sent, -max, +max)` without modifying `prev_steps_sent`,
`execute_zoom steps` adds exactly `steps` to `prev_steps_sent`, and on the
frame sequence with `steps_total = 0,2,2,5` (cap 6) the fired steps are
`0,2,0,3` while `prev_steps_sent` tracks `steps_total` exactly, so no
already-sent step is re-fired. -/
theorem C1_incremental_step_protocol :
    (∀ (m : PinchZoomManager) (pinch : ℚ) (iz tz : Option ℚ) (base : ℚ),
        m.base_pinch = some base →
        (m.process_pinch pinch iz tz).1.prev_steps_sent
            = m.prev_steps_sent ∧
        (m.process_pinch pinch iz tz).2.1
            = clamp ((m.process_pinch pinch iz tz).2.2.steps_total
                  - m.prev_steps_sent)
                (-m.max_steps_per_frame) m.max_steps_per_frame) ∧
    (∀ (m : PinchZoomManager) (steps : ℤ),
        (m.execute_zoom steps).1.prev_steps_sent
            = m.prev_steps_sent + steps) ∧
    runPinchFrames pinchScenarioStart [100, 160, 160, 250]
        = [(0, 0, 0), (2, 2, 2), (2, 0, 2), (5, 3, 5)] := by
  refine ⟨?_, ?_, ?_⟩
  · intro m pinch iz tz base h
    have hs := process_pinch_spec m pinch iz tz base h
    exact ⟨hs.2.1, hs.2.2.2.2.2.1⟩
  · intro m steps
    unfold PinchZoomManager.execute_zoom
    rcases lt_trichotomy steps 0 with h | h | h
    · simp [not_lt.mpr (le_of_lt h), h]
    · simp [h]
    · simp [h, not_lt.mpr (le_of_lt h)]
  · norm_num [runPinchFrames, pinchScenarioStart, PinchZoomManager.make,
      PinchZoomManager.process_pinch, PinchZoomManager.normalizeStep,
      PinchZoomManager.initInfo, PinchZoomManager.execute_zoom,
      EMAFilter.make, EMAFilter.update, pythonRound, clamp]

/-- C1 witness: the no-modification/clamp law applied at a concrete manager
with the baseline set, and the accounting law of `execute_zoom` at a
concrete step count. -/
theorem C1_incremental_step_protocol_witness :
    (quantizerTest.process_pinch 31 none none).1.prev_steps_sent
        = quantizerTest.prev_steps_sent ∧
    (quantizerTest.execute_zoom 2).1.prev_steps_sent
        = quantizerTest.prev_steps_sent + 2 :=
  ⟨(C1_incremental_step_protocol.1 quantizerTest 31 none none 0 rfl).1,
    C1_incremental_step_protocol.2.1 quantizerTest 2⟩

/-- C4: zoom-guard decision order and effects — deny with
"cooldown/grace" while `now < block_until` (leaving the guard unchanged),
then deny with "edge-band" when `depth < threshold_on + edge_band`, then
deny with "z-drop-guard" and set `block_until = now + 120` when the trailing
sample exceeds `depth` by more than `drop_guard`; otherwise allow and store
`depth` as the new trailing sample. The trailing sample changes only on
allowed calls, and zoom is never allowed while `now < block_until`. -/
theorem C4_zoom_guard_decision :
    ∀ (g : ZoomGuard) (now : ℤ) (depth thOn thOff : ℚ),
      (now < g.zoom_block_until →
          g.is_zoom_allowed now depth thOn thOff
            = (g, false, "cooldown/grace")) ∧
      (¬ now < g.zoom_block_until → depth < thOn + g.edge_band →
          g.is_zoom_allowed now depth thOn thOff
            = (g, false, "edge-band")) ∧
      (∀ prev, ¬ now < g.zoom_block_until → ¬ depth < thOn + g.edge_band →
          g.prev_z_len = some prev → g.drop_guard < prev - depth →
          g.is_zoom_allowed now depth thOn thOff
            = ({ g with zoom_block_until := now + 120 },
                false, "z-drop-guard")) ∧
      (¬ now < g.zoom_block_until → ¬ depth < thOn + g.edge_band →
          (∀ prev, g.prev_z_len = some prev → prev - depth ≤ g.drop_guard) →
          g.is_zoom_allowed now depth thOn thOff
            = ({ g with prev_z_len := some depth }, true, "")) ∧
      ((g.is_zoom_allowed now depth thOn thOff).1.prev_z_len ≠ g.prev_z_len →
          (g.is_zoom_allowed now depth thOn thOff).2.1 = true) ∧
      (now < g.zoom_block_until →
          (g.is_zoom_allowed now depth thOn thOff).2.1 = false) := by
  intro g now depth thOn thOff
  refine ⟨?_, ?_, ?_, ?_, ?_, ?_⟩
  · intro h1
    simp [ZoomGuard.is_zoom_allowed, h1]
  · intro h1 h2
    simp [ZoomGuard.is_zoom_allowed, h1, h2]
  · intro prev h1 h2 hp h4
    simp [ZoomGuard.is_zoom_allowed, h1, h2, hp, h4]
  · intro h1 h2 h3
    rcases hp : g.prev_z_len with _ | prev
    · simp [ZoomGuard.is_zoom_allowed, h1, h2, hp]
    · simp [ZoomGuard.is_zoom_allowed, h1, h2, hp,
        not_lt.mpr (h3 prev hp)]
  · intro hchanged
    rcases lt_or_le now g.zoom_block_until with h1 | h1
    · exfalso; apply hchanged
      simp [ZoomGuard.is_zoom_allowed, h1]
    · rcases lt_or_le depth (thOn + g.edge_band) with h2 | h2
      · exfalso; apply hchanged
        simp [ZoomGuard.is_zoom_allowed, not_lt.mpr h1, h2]
      · rcases hp : g.prev_z_len with _ | prev
        · simp [ZoomGuard.is_zoom_allowed, not_lt.mpr h1, not_lt.mpr h2, hp]
        · rcases lt_or_le g.drop_guard (prev - depth) with h4 | h4
          · exfalso; apply hchanged
            simp [ZoomGuard.is_zoom_allowed, not_lt.mpr h1, not_lt.mpr h2,
              hp, h4]
          · simp [ZoomGuard.is_zoom_allowed, not_lt.mpr h1, not_lt.mpr h2,
              hp, not_lt.mpr h4]
  · intro h1
    simp [ZoomGuard.is_zoom_allowed, h1]

/-- C4 witness: the cooldown branch applied at a concrete armed guard, and
the allow branch at a concrete idle guard. -/
theorem C4_zoom_guard_decision_witness :
    (ZoomGuard.make.set_grace_period 0).is_zoom_allowed 100 50 30 20
        = (ZoomGuard.make.set_grace_period 0, false, "cooldown/grace") ∧
    ZoomGuard.make.is_zoom_allowed 200 50 30 20
        = ({ ZoomGuard.make with prev_z_len := some 50 }, true, "") := by
  constructor
  · exact (C4_zoom_guard_decision (ZoomGuard.make.set_grace_period 0)
      100 50 30 20).1 (by norm_num [ZoomGuard.make, ZoomGuard.set_grace_period])
  · exact (C4_zoom_guard_decision ZoomGuard.make 200 50 30 20).2.2.2.1
      (by norm_num [ZoomGuard.make]) (by norm_num [ZoomGuard.make])
      (by intro prev hp; simp [ZoomGuard.make] at hp)

/-- C6: missing-signal handling — when the eye depth, index-tip depth, or
hand landmarks are absent, the per-frame update releases any held drag,
restores the system cursor if it had been changed (reachable states have
the cursor changed only while ACTIVE on a Windows host), resets both the
pinch-zoom session and the zoom guard, and emits no gesture events. -/
theorem C6_missing_signal_safe_reset :
    ∀ (st : AppState),
      (st.cursor_changer.cursor_changed = true →
          st.state_manager.active = true ∧
          st.cursor_changer.windows_available = true) →
      (st.mouse.dragging = true → st.mouse.windows_available = true) →
      (handleMissingSignal st).1.mouse.dragging = false ∧
      (handleMissingSignal st).1.cursor_changer.cursor_changed = false ∧
      (handleMissingSignal st).1.pinch_zoom_manager
          = st.pinch_zoom_manager.reset ∧
      (handleMissingSignal st).1.zoom_guard = st.zoom_guard.reset ∧
      (handleMissingSignal st).2 = [] := by
  intro st hcursor hmouse
  unfold handleMissingSignal MouseController.drag_end
    SystemCursorChanger.restore_cursor
  rcases hd : st.mouse.dragging with _ | _ <;>
    rcases hc : st.cursor_changer.cursor_changed with _ | _ <;>
    rcases ha : st.state_manager.active with _ | _ <;>
    simp_all

/-- C6 witness: the safe reset applied at a concrete state holding a drag
with the cursor changed while ACTIVE. -/
theorem C6_missing_signal_safe_reset_witness :
    (handleMissingSignal
        { mouse := { dragging := true, windows_available := true }
          cursor_changer :=
            { enabled := true, cursor_changed := true,
              windows_available := true }
          state_manager := { StateManager.make with active := true }
          pinch_zoom_manager := PinchZoomManager.make 1
          zoom_guard := ZoomGuard.make }).1.mouse.dragging = false :=
  (C6_missing_signal_safe_reset
      { mouse := { dragging := true, windows_available := true }
        cursor_changer :=
          { enabled := true, cursor_changed := true,
            windows_available := true }
        state_manager := { StateManager.make with active := true }
        pinch_zoom_manager := PinchZoomManager.make 1
        zoom_guard := ZoomGuard.make }
      (fun _ => ⟨rfl, rfl⟩) (fun _ => rfl)).1

lemma clamp_mem {v lo hi : ℚ} (h : lo ≤ hi) :
    lo ≤ clamp v lo hi ∧ clamp v lo hi ≤ hi := by
  by_cases h1 : v < lo
  · simp only [clamp, if_pos h1]
    exact ⟨le_refl lo, h⟩
  · by_cases h2 : hi < v
    · simp only [clamp, if_neg h1, if_pos h2]
      exact ⟨h, le_refl hi⟩
    · simp only [clamp, if_neg h1, if_neg h2]
      exact ⟨le_of_not_lt h1, le_of_not_lt h2⟩

lemma pythonInt_bounds {q : ℚ} {B : ℤ} (h0 : 0 ≤ q) (hB : q ≤ (B : ℚ)) :
    0 ≤ pythonInt q ∧ pythonInt q ≤ B := by
  unfold pythonInt
  rw [if_pos h0]
  refine ⟨Int.floor_nonneg.mpr h0, ?_⟩
  have := Int.floor_le_floor hB
  simpa using this

/-- C9: cursor mapping output bounds — for every input pair (including
values outside `[0,1]`), any mirror setting and any prior filter state,
`map_to_screen` returns integer coordinates inside
`[0, screen_width-1] × [0, screen_height-1]`; and the very first call after
construction or reset (no `_last_sent`) reports `moved = true`. -/
theorem C9_cursor_mapper_bounds :
    ∀ (c : CursorMapper) (nx ny : ℚ),
      1 ≤ c.screen_width → 1 ≤ c.screen_height →
      (0 ≤ (c.map_to_screen nx ny).2.1 ∧
        (c.map_to_screen nx ny).2.1 ≤ c.screen_width - 1 ∧
        0 ≤ (c.map_to_screen nx ny).2.2.1 ∧
        (c.map_to_screen nx ny).2.2.1 ≤ c.screen_height - 1) ∧
      (c.last_sent = none → (c.map_to_screen nx ny).2.2.2 = true) := by
  intro c nx ny hw hh
  have hw1 : (0 : ℚ) ≤ (c.screen_width : ℚ) - 1 := by
    have : (1 : ℚ) ≤ (c.screen_width : ℚ) := by exact_mod_cast hw
    linarith
  have hh1 : (0 : ℚ) ≤ (c.screen_height : ℚ) - 1 := by
    have : (1 : ℚ) ≤ (c.screen_height : ℚ) := by exact_mod_cast hh
    linarith
  simp only [CursorMapper.map_to_screen]
  rcases he : c.ema_filter.update
      (clamp (if c.mirror then 1 - nx else nx) 0 1 * (c.screen_width : ℚ),
        clamp ny 0 1 * (c.screen_height : ℚ)) with ⟨e1, fv⟩
  simp only [he]
  have hx := clamp_mem (v := fv.1) hw1
  have hy := clamp_mem (v := fv.2) hh1
  have hbx := pythonInt_bounds hx.1 (B := c.screen_width - 1)
    (by push_cast; linarith [hx.2])
  have hby := pythonInt_bounds hy.1 (B := c.screen_height - 1)
    (by push_cast; linarith [hy.2])
  rcases hls : c.last_sent with _ | lxy
  · simp only [hls]
    exact ⟨⟨hbx.1, hbx.2, hby.1, hby.2⟩, fun _ => rfl⟩
  · simp only [hls]
    constructor
    · split <;> exact ⟨hbx.1, hbx.2, hby.1, hby.2⟩
    · intro hnone
      exact Option.noConfusion hnone

/-- C9 witness: bounds and first-call `moved=true` at a concrete fresh mapper
fed an out-of-range input. -/
theorem C9_cursor_mapper_bounds_witness :
    (0 ≤ (({ screen_width := 1920, screen_height := 1080,
              ema_filter := { alpha := 3/5, values := none },
              move_threshold := 1, mirror := false,
              last_sent := none } : CursorMapper).map_to_screen 7 (-2)).2.1 ∧
      (({ screen_width := 1920, screen_height := 1080,
          ema_filter := { alpha := 3/5, values := none },
          move_threshold := 1, mirror := false,
          last_sent := none } : CursorMapper).map_to_screen 7 (-2)).2.1
        ≤ 1920 - 1 ∧
      0 ≤ (({ screen_width := 1920, screen_height := 1080,
              ema_filter := { alpha := 3/5, values := none },
              move_threshold := 1, mirror := false,
              last_sent := none } : CursorMapper).map_to_screen 7 (-2)).2.2.1 ∧
      (({ screen_width := 1920, screen_height := 1080,
          ema_filter := { alpha := 3/5, values := none },
          move_threshold := 1, mirror := false,
          last_sent := none } : CursorMapper).map_to_screen 7 (-2)).2.2.1
        ≤ 1080 - 1) ∧
    (({ screen_width := 1920, screen_height := 1080,
        ema_filter := { alpha := 3/5, values := none },
        move_threshold := 1, mirror := false,
        last_sent := none } : CursorMapper).map_to_screen 7 (-2)).2.2.2
      = true := by
  have h := C9_cursor_mapper_bounds
    { screen_width := 1920, screen_height := 1080,
      ema_filter := { alpha := 3/5, values := none },
      move_threshold := 1, mirror := false, last_sent := none }
    7 (-2) (by norm_num) (by norm_num)
  exact ⟨h.1, h.2 rfl⟩

/-- Frame loop over `check_hold_duration`: feed `(predicate, time)` frames,
collect the `(confirm, progress)` outputs. -/
def ShakaModeRecognizer.runHold (r : ShakaModeRecognizer) :
    List (Bool × ℤ) → ShakaModeRecognizer × List (Bool × ℚ)
  | [] => (r, [])
  | (p, t) :: rest =>
      let s := r.check_hold_duration p t
      let q := ShakaModeRecognizer.runHold s.1 rest
      (q.1, s.2 :: q.2)

lemma check_true_eq (hold t0 : ℤ) (c : Bool) (t : ℤ) :
    ShakaModeRecognizer.check_hold_duration ⟨hold, some t0, c⟩ true t
      = (⟨hold, some t0, c || decide (hold ≤ t - t0)⟩,
          !c && decide (hold ≤ t - t0),
          if (!c && decide (hold ≤ t - t0)) = true then 1
          else min 1 (((t - t0 : ℤ) : ℚ) / (hold : ℚ))) := by
  unfold ShakaModeRecognizer.check_hold_duration
  by_cases hc : c <;> by_cases hle : hold ≤ t - t0 <;>
    simp [hc, hle, Option.getD]

lemma check_first_eq (hold t : ℤ) (h0 : 0 < hold) :
    (ShakaModeRecognizer.make hold).check_hold_duration true t
      = (⟨hold, some t, false⟩, false, 0) := by
  unfold ShakaModeRecognizer.make ShakaModeRecognizer.check_hold_duration
  have hne : ¬(hold ≤ t - t) := by omega
  simp [hne]
  exact h0

lemma runHold_true_conf (hold : ℤ) (ts : List ℤ) :
    ∀ (t0 : ℤ) (c : Bool) (i : ℕ), i < ts.length →
      (((ShakaModeRecognizer.runHold ⟨hold, some t0, c⟩
            (ts.map fun t => (true, t))).2.getD i (false, 0)).1 = true
        ↔ (c = false ∧ hold ≤ ts.getD i 0 - t0 ∧
            ∀ j, j < i → ts.getD j 0 - t0 < hold)) := by
  induction ts with
  | nil => intro t0 c i h; simp at h
  | cons t rest ih =>
      intro t0 c i h
      simp only [List.map_cons, ShakaModeRecognizer.runHold, check_true_eq]
      cases i with
      | zero =>
          simp only [List.getD_cons_zero]
          constructor
          · intro hconf
            simp only [Bool.and_eq_true, Bool.not_eq_true',
              decide_eq_true_eq] at hconf
            exact ⟨hconf.1, hconf.2, fun j hj => absurd hj (by omega)⟩
          · rintro ⟨hc, hle, -⟩
            simp [hc, hle]
      | succ i' =>
          simp only [List.getD_cons_succ]
          have hi' : i' < rest.length := by simpa using h
          rw [ih t0 (c || decide (hold ≤ t - t0)) i' hi']
          constructor
          · rintro ⟨hc', hle, hbefore⟩
            simp only [Bool.or_eq_false_iff, decide_eq_false_iff_not] at hc'
            refine ⟨hc'.1, hle, ?_⟩
            intro j hj
            cases j with
            | zero => simpa using lt_of_not_le hc'.2
            | succ j' => exact hbefore j' (by omega)
          · rintro ⟨hc, hle, hbefore⟩
            have ht : t - t0 < hold := by simpa using hbefore 0 (by omega)
            refine ⟨?_, hle, fun j hj => hbefore (j + 1) (by omega)⟩
            simp [hc, not_le.mpr ht]

lemma runHold_true_progress (hold : ℤ) (h0 : 0 < hold) (ts : List ℤ) :
    ∀ (t0 : ℤ) (c : Bool), (∀ t ∈ ts, t0 ≤ t) →
      ∀ y ∈ ((ShakaModeRecognizer.runHold ⟨hold, some t0, c⟩
          (ts.map fun t => (true, t))).2.map Prod.snd),
        0 ≤ y ∧ y ≤ 1 := by
  induction ts with
  | nil =>
      intro t0 c _ y hy
      simp [ShakaModeRecognizer.runHold] at hy
  | cons t rest ih =>
      intro t0 c hts y hy
      simp only [List.map_cons, ShakaModeRecognizer.runHold, check_true_eq,
        List.map_cons, List.mem_cons] at hy
      rcases hy with h | h
      · subst h
        by_cases hfire : (!c && decide (hold ≤ t - t0)) = true
        · simp [hfire]
        · simp only [hfire, if_false]
          have ht0 : t0 ≤ t := hts t (by simp)
          have hnum : (0 : ℚ) ≤ ((t - t0 : ℤ) : ℚ) / (hold : ℚ) := by
            apply div_nonneg
            · exact_mod_cast Int.sub_nonneg.mpr ht0
            · exact_mod_cast le_of_lt h0
          constructor
          · exact le_min (by norm_num) hnum
          · exact min_le_left _ _
      · exact ih t0 _ (fun z hz => hts z (by simp [hz])) y h

/-- C5: hold-gesture detector — over an all-true run with strictly
increasing times the confirm output is true exactly on the first frame whose
elapsed time since the run's start reaches `hold_duration_ms` (and never
before or again); a false frame resets the start to unset with progress 0,
so re-asserting restarts from zero; and every reported progress lies in
`[0,1]`. -/
theorem C5_hold_gesture_detector :
    (∀ (hold t0 : ℤ) (ts : List ℤ), 0 < hold →
        (t0 :: ts).Chain' (· < ·) →
        ∀ i, i < (t0 :: ts).length →
          ((((ShakaModeRecognizer.make hold).runHold
              ((t0 :: ts).map fun t => (true, t))).2.getD i (false, 0)).1
              = true
            ↔ (hold ≤ (t0 :: ts).getD i 0 - t0 ∧
                ∀ j, j < i → (t0 :: ts).getD j 0 - t0 < hold))) ∧
    (∀ (r : ShakaModeRecognizer) (now : ℤ),
        r.check_hold_duration false now
          = ({ r with gesture_start_time := none, gesture_confirmed := false },
              false, 0)) ∧
    (∀ (hold t0 : ℤ) (ts : List ℤ), 0 < hold →
        (t0 :: ts).Chain' (· < ·) →
        ∀ y ∈ (((ShakaModeRecognizer.make hold).runHold
            ((t0 :: ts).map fun t => (true, t))).2.map Prod.snd),
          0 ≤ y ∧ y ≤ 1) := by
  refine ⟨?_, ?_, ?_⟩
  · intro hold t0 ts h0 _hchain i hi
    simp only [List.map_cons, ShakaModeRecognizer.runHold,
      check_first_eq hold t0 h0]
    cases i with
    | zero =>
        simp only [List.getD_cons_zero]
        constructor
        · intro hfalse; simp at hfalse
        · rintro ⟨hle, -⟩
          exact absurd hle (by omega)
    | succ i' =>
        simp only [List.getD_cons_succ]
        have hi' : i' < ts.length := by simpa using hi
        rw [runHold_true_conf hold ts t0 false i' hi']
        constructor
        · rintro ⟨-, hle, hb⟩
          refine ⟨hle, ?_⟩
          intro j hj
          cases j with
          | zero => simpa using h0
          | succ j' => simpa using hb j' (by omega)
        · rintro ⟨hle, hb⟩
          refine ⟨rfl, hle, ?_⟩
          intro j hj
          simpa using hb (j + 1) (by omega)
  · intro r now
    simp [ShakaModeRecognizer.check_hold_duration]
  · intro hold t0 ts h0 hchain y hy
    have hpw := (List.pairwise_cons.mp
      (List.chain'_iff_pairwise.mp hchain)).1
    simp only [List.map_cons, ShakaModeRecognizer.runHold,
      check_first_eq hold t0 h0, List.map_cons, List.mem_cons] at hy
    rcases hy with h | h
    · rw [h]; norm_num
    · exact runHold_true_progress hold h0 ts t0 false
        (fun t ht => le_of_lt (hpw t ht)) y h

/-- C5 witness: with `hold_duration_ms = 2000` and frames at
`0, 1000, 2000, 2500` ms, the confirm output fires exactly at the frame at
`2000` ms (index 2), and a false frame resets a primed recognizer. -/
theorem C5_hold_gesture_detector_witness :
    (((ShakaModeRecognizer.make 2000).runHold
        (([0, 1000, 2000, 2500] : List ℤ).map fun t => (true, t))).2.getD 2
        (false, 0)).1 = true ∧
    (ShakaModeRecognizer.check_hold_duration ⟨2000, some 0, true⟩ false 2500
        = (⟨2000, none, false⟩, false, 0)) := by
  constructor
  · exact (C5_hold_gesture_detector.1 2000 0 [1000, 2000, 2500]
        (by norm_num) (by norm_num [List.chain'_cons]) 2 (by norm_num)).mpr
      ⟨by decide, by intro j hj; interval_cases j <;> decide⟩
  · exact C5_hold_gesture_detector.2.1 ⟨2000, some 0, true⟩ 2500

/-- Frame loop over `process_z_distance`, collecting the returned info
dicts. -/
def runZ (sm : StateManager) : List ℚ → List ZInfo
  | [] => []
  | z :: rest =>
      let r := sm.process_z_distance z
      r.2 :: runZ r.1 rest

/-- A state manager whose `factor` has been lowered to `factor_min = 0.3`
(reachable from the shipped `FACTOR = 1.2` by five `decrease_factor`
presses), with the baseline locked at 100 and an identity filter
(`alpha = 1`) so the smoothed value equals the raw input. -/
def lowFactorManager : StateManager :=
  { StateManager.make with
      factor := 3/10
      ema_filter := EMAFilter.make 1
      base_len := some 100 }

/-- Iterated activation state of `stateTransition` over a smoothed sequence
`s` with fixed thresholds, starting IDLE. -/
def activeIter (threshold_on threshold_off : ℚ) (s : ℕ → ℚ) : ℕ → Bool
  | 0 => false
  | n + 1 =>
      (stateTransition (activeIter threshold_on threshold_off s n) (s n)
        threshold_on threshold_off).1

/-- Characterization of `process_z_distance` when the baseline is set. -/
lemma process_z_info (sm : StateManager) (z b : ℚ) (h : sm.base_len = some b) :
    (sm.process_z_distance z).2.base_len = b ∧
    (sm.process_z_distance z).2.threshold_on = b * sm.factor + sm.z_margin ∧
    (sm.process_z_distance z).2.threshold_off
        = b * max (4/5) (sm.factor * sm.hysteresis_ratio) - sm.z_margin ∧
    (sm.process_z_distance z).2.z_len_filtered = (sm.ema_filter.update z).2 ∧
    (sm.process_z_distance z).2.active = (sm.process_z_distance z).1.active ∧
    (sm.process_z_distance z).1.active
        = (stateTransition sm.active (sm.ema_filter.update z).2
            (b * sm.factor + sm.z_margin)
            (b * max (4/5) (sm.factor * sm.hysteresis_ratio)
              - sm.z_margin)).1 ∧
    (sm.process_z_distance z).2.state_changed
        = (stateTransition sm.active (sm.ema_filter.update z).2
            (b * sm.factor + sm.z_margin)
            (b * max (4/5) (sm.factor * sm.hysteresis_ratio)
              - sm.z_margin)).2 := by
  rcases hu : sm.ema_filter.update z with ⟨e1, zf⟩
  rcases ht : stateTransition sm.active zf
      (b * sm.factor + sm.z_margin)
      (b * max (4/5) (sm.factor * sm.hysteresis_ratio) - sm.z_margin)
    with ⟨na, sc⟩
  simp only [StateManager.process_z_distance, hu, h, Option.getD_some, ht]
  simp [ht]

lemma stateTransition_changed (a : Bool) (zf thOn thOff : ℚ) :
    (stateTransition a zf thOn thOff).2 = true
      ↔ (stateTransition a zf thOn thOff).1 ≠ a := by
  cases a <;> by_cases h1 : thOn ≤ zf <;> by_cases h2 : zf < thOff <;>
    simp [stateTransition, h1, h2]

lemma activeIter_succ_eq (thOn thOff : ℚ) (s : ℕ → ℚ) (hmono : Monotone s)
    (hoff : thOff ≤ thOn) :
    ∀ n, activeIter thOn thOff s (n + 1) = decide (thOn ≤ s n) := by
  intro n
  induction n with
  | zero =>
      by_cases h : thOn ≤ s 0 <;> simp [activeIter, stateTransition, h]
  | succ k ih =>
      show (stateTransition (activeIter thOn thOff s (k + 1)) (s (k + 1))
          thOn thOff).1 = _
      rw [ih]
      by_cases h : thOn ≤ s k
      · have h1 : thOn ≤ s (k + 1) := le_trans h (hmono (Nat.le_succ k))
        have h2 : ¬(s (k + 1) < thOff) := not_lt.mpr (le_trans hoff h1)
        simp [stateTransition, h, h1, h2]
      · by_cases h1 : thOn ≤ s (k + 1) <;>
          simp [stateTransition, h, h1]

lemma activeIter_entered_iff (thOn thOff : ℚ) (s : ℕ → ℚ)
    (hmono : Monotone s) (hoff : thOff ≤ thOn) (n : ℕ) :
    (activeIter thOn thOff s n = false
        ∧ activeIter thOn thOff s (n + 1) = true)
      ↔ (thOn ≤ s n ∧ ∀ j, j < n → s j < thOn) := by
  cases n with
  | zero =>
      rw [activeIter_succ_eq thOn thOff s hmono hoff 0]
      simp [activeIter]
  | succ k =>
      rw [activeIter_succ_eq thOn thOff s hmono hoff k,
        activeIter_succ_eq thOn thOff s hmono hoff (k + 1)]
      constructor
      · rintro ⟨hfalse, htrue⟩
        have hk : ¬(thOn ≤ s k) := by simpa using hfalse
        refine ⟨by simpa using htrue, ?_⟩
        intro j hj
        exact lt_of_le_of_lt (hmono (by omega : j ≤ k)) (lt_of_not_le hk)
      · rintro ⟨hle, hb⟩
        have hk : s k < thOn := hb k (by omega)
        simp [not_le.mpr hk, hle]

/-- C2 counterexample: with the reachable `factor = 0.3` (thresholds
`on = 35 < off = 75` at baseline 100, shipped margin and hysteresis) and the
smoothed sequence 30, 40, 50, 60 rising from below `threshold_on`, the
machine enters ACTIVE twice (at the samples 40 and 60), not exactly once at
the first sample `≥ threshold_on` — refuting the parenthetical consequence
of the claim. -/
theorem C2_activation_counterexample :
    (runZ lowFactorManager [30, 40, 50, 60]).map
        (fun i => (i.z_len_filtered, i.threshold_on, i.threshold_off,
          i.active, i.state_changed))
      = [(30, 35, 75, false, false), (40, 35, 75, true, true),
         (50, 35, 75, false, true), (60, 35, 75, true, true)] ∧
    ((runZ lowFactorManager [30, 40, 50, 60]).filter
        (fun i => i.state_changed && i.new_state)).length = 2 := by
  constructor <;>
    norm_num [runZ, lowFactorManager, StateManager.make,
      StateManager.process_z_distance, stateTransition, EMAFilter.make,
      EMAFilter.update, max_def]

/-- C2 (amended): on each call with a set baseline the thresholds are
`base*factor + margin` and `base*max(0.8, factor*hysteresis) - margin`, the
state transitions IDLE→ACTIVE exactly when the smoothed value reaches
`threshold_on`, ACTIVE→IDLE exactly when it falls below `threshold_off`,
and is unchanged otherwise; and — provided `threshold_off ≤ threshold_on` —
for a monotonically rising smoothed sequence ACTIVE is entered exactly at
the first sample reaching `threshold_on` and not before or again. -/
theorem C2_activation_amended :
    (∀ (sm : StateManager) (z b : ℚ), sm.base_len = some b →
        (sm.process_z_distance z).2.threshold_on
            = b * sm.factor + sm.z_margin ∧
        (sm.process_z_distance z).2.threshold_off
            = b * max (4/5) (sm.factor * sm.hysteresis_ratio)
                - sm.z_margin ∧
        (sm.active = false →
            ((sm.process_z_distance z).1.active = true
              ↔ (sm.process_z_distance z).2.threshold_on
                  ≤ (sm.process_z_distance z).2.z_len_filtered)) ∧
        (sm.active = true →
            ((sm.process_z_distance z).1.active = false
              ↔ (sm.process_z_distance z).2.z_len_filtered
                  < (sm.process_z_distance z).2.threshold_off)) ∧
        ((sm.process_z_distance z).2.state_changed = true
          ↔ (sm.process_z_distance z).1.active ≠ sm.active)) ∧
    (∀ (thOn thOff : ℚ) (s : ℕ → ℚ), Monotone s → thOff ≤ thOn →
        ∀ n, (activeIter thOn thOff s n = false
              ∧ activeIter thOn thOff s (n + 1) = true)
          ↔ (thOn ≤ s n ∧ ∀ j, j < n → s j < thOn)) := by
  constructor
  · intro sm z b h
    obtain ⟨h1, h2, h3, h4, h5, h6, h7⟩ := process_z_info sm z b h
    refine ⟨h2, h3, ?_, ?_, ?_⟩
    · intro ha
      rw [h6, h2, h4, ha]
      by_cases hc : b * sm.factor + sm.z_margin ≤ (sm.ema_filter.update z).2 <;>
        simp [stateTransition, hc]
    · intro ha
      rw [h6, h3, h4, ha]
      by_cases hc : (sm.ema_filter.update z).2
          < b * max (4/5) (sm.factor * sm.hysteresis_ratio) - sm.z_margin <;>
        simp [stateTransition, hc]
    · rw [h7, h6]
      exact stateTransition_changed sm.active _ _ _
  · intro thOn thOff s hm ho n
    exact activeIter_entered_iff thOn thOff s hm ho n

/-- C2 witness: the transition rule applied at the shipped-configuration
manager with baseline 100, and the single-entry property on the rising
sequence `n ↦ n` with thresholds 2 > 1. -/
theorem C2_activation_amended_witness :
    (({ StateManager.make with
          ema_filter := EMAFilter.make 1
          base_len := some 100 } : StateManager).process_z_distance
        130).2.threshold_on = 100 * (6/5) + 5 ∧
    activeIter 2 1 (fun n => (n : ℚ)) 3 = true := by
  constructor
  · have h := (C2_activation_amended.1
        { StateManager.make with
          ema_filter := EMAFilter.make 1
          base_len := some 100 } 130 100 rfl).1
    simpa [StateManager.make] using h
  · have hiff := C2_activation_amended.2 2 1 (fun n => (n : ℚ))
      (fun a b hab => by exact_mod_cast Nat.cast_le.mpr hab)
      (by norm_num) 2
    exact (hiff.mpr ⟨by norm_num,
      by intro j hj; interval_cases j <;> norm_num⟩).2

/-- C3 counterexample: `factor = 0.3` is reachable from the shipped
configuration by five `decrease_factor` presses, satisfies the claim's
premise `hysteresis_ratio*factor < factor` and lies in
`[factor_min, factor_max]`, yet at baseline 100 the thresholds computed by
`process_z_distance` satisfy `threshold_off = 75 ≥ threshold_on = 35`. -/
theorem C3_hysteresis_counterexample :
    (StateManager.decrease_factor)^[5] StateManager.make
        = { StateManager.make with factor := 3/10 } ∧
    lowFactorManager.hysteresis_ratio * lowFactorManager.factor
        < lowFactorManager.factor ∧
    lowFactorManager.factor_min ≤ lowFactorManager.factor ∧
    lowFactorManager.factor ≤ lowFactorManager.factor_max ∧
    (lowFactorManager.process_z_distance 100).2.threshold_on = 35 ∧
    (lowFactorManager.process_z_distance 100).2.threshold_off = 75 ∧
    ¬((lowFactorManager.process_z_distance 100).2.threshold_off
        < (lowFactorManager.process_z_distance 100).2.threshold_on) := by
  have h5 : (StateManager.decrease_factor)^[5] StateManager.make
      = StateManager.decrease_factor (StateManager.decrease_factor
          (StateManager.decrease_factor (StateManager.decrease_factor
            (StateManager.decrease_factor StateManager.make)))) := rfl
  refine ⟨?_, ?_, ?_, ?_, ?_, ?_, ?_⟩ <;>
    norm_num [h5, StateManager.decrease_factor, StateManager.make,
      lowFactorManager, StateManager.process_z_distance, stateTransition,
      EMAFilter.make, EMAFilter.update, max_def]

/-- C3 (amended): whenever `hysteresis_ratio*factor < factor`, the product
`factor*hysteresis_ratio` is at least 0.8 (so the `max(0.8, ...)` floor is
inactive), the baseline is positive and `z_margin` nonnegative, the
thresholds computed by `process_z_distance` satisfy
`threshold_off < threshold_on`. -/
theorem C3_hysteresis_amended :
    ∀ (sm : StateManager) (z b : ℚ), sm.base_len = some b →
      sm.hysteresis_ratio * sm.factor < sm.factor →
      4/5 ≤ sm.factor * sm.hysteresis_ratio →
      0 < b → 0 ≤ sm.z_margin →
      (sm.process_z_distance z).2.threshold_off
        < (sm.process_z_distance z).2.threshold_on := by
  intro sm z b h hh h45 hb hm
  obtain ⟨-, h2, h3, -⟩ := process_z_info sm z b h
  rw [h2, h3, max_eq_right h45]
  have hcomm : sm.factor * sm.hysteresis_ratio
      = sm.hysteresis_ratio * sm.factor := mul_comm _ _
  have hfh : sm.factor * sm.hysteresis_ratio < sm.factor := by
    rw [hcomm]; exact hh
  have hmul : b * (sm.factor * sm.hysteresis_ratio) < b * sm.factor :=
    mul_lt_mul_of_pos_left hfh hb
  linarith

/-- C3 witness: the amended invariant at the shipped configuration
(`factor = 1.2`, hysteresis 0.95, margin 5) with baseline 100. -/
theorem C3_hysteresis_amended_witness :
    (({ StateManager.make with
          ema_filter := EMAFilter.make 1
          base_len := some 100 } : StateManager).process_z_distance
        130).2.threshold_off
      < (({ StateManager.make with
          ema_filter := EMAFilter.make 1
          base_len := some 100 } : StateManager).process_z_distance
        130).2.threshold_on :=
  C3_hysteresis_amended
    { StateManager.make with
      ema_filter := EMAFilter.make 1
      base_len := some 100 } 130 100 rfl
    (by norm_num [StateManager.make]) (by norm_num [StateManager.make])
    (by norm_num) (by norm_num [StateManager.make])

end AirTouch
